import Mathlib

/-!
Shallow embedding of the SizeTree program (src/main.rs) and verification of
its specification claims.

The filesystem is modelled as a tree of nodes.  A node is a regular file with
a byte length, a directory whose child listing either enumerates (`some`) or
fails (`none`, modelling a `read_dir` error), or a node whose metadata cannot
be inspected at all (`broken`, modelling an `fs::metadata` error).  A failing
individual `ReadDir` entry (the `entry_result` `Err` case, silently skipped
at lines 67 and 158 of main.rs) is observationally identical to the entry
being absent from the listing, so it needs no separate constructor.

Numeric idealisation: Rust's `f64` values are modelled as exact rationals
(`ℚ`) extended with NaN and the two infinities.  All multipliers in the
program are powers of two, for which `f64` multiplication is exact, and the
claims only use decimally-exact magnitudes, so the idealisation does not
affect any statement proved here.  The `as u64` cast is Rust's saturating
float-to-integer cast (truncate toward zero, clamp to `[0, 2^64-1]`, NaN to
`0`).
-/

namespace SizeTree

/-- The filesystem model: a regular file with its byte length, a directory
with an optional (enumeration may fail) list of named children, or a node
whose metadata cannot be read. -/
inductive Node where
  | file (size : Nat)
  | dir (children : Option (List (String × Node)))
  | broken
deriving Repr

/-- The error type of main.rs (enum SizeError, lines 35-39).  The underlying
io::Error is represented by its short description string. -/
inductive SizeError where
  | parseError (msg : String)
  | ioError (msg : String)
deriving Repr, DecidableEq

/-- Display of SizeError (main.rs lines 41-48). -/
def size_error_display : SizeError → String
  | .parseError msg => "Size parsing error: " ++ msg
  | .ioError msg => "I/O error: " ++ msg

/-- Result of a successful `fs::metadata` call: whether the node is a
directory and its length.  The length of a directory is platform-defined and
never used by the program, so it is fixed to 0 here. -/
structure Meta where
  isDir : Bool
  len : Nat
deriving Repr, DecidableEq

/-- Model of `fs::metadata`: fails exactly on a `broken` node. -/
def metadata : Node → Except SizeError Meta
  | .file s => .ok ⟨false, s⟩
  | .dir _ => .ok ⟨true, 0⟩
  | .broken => .error (.ioError "metadata")

/-- Model of `fs::read_dir`: succeeds exactly on a directory whose listing
enumerates; fails on a file (NotADirectory), on a `broken` node, and on a
directory whose enumeration fails. -/
def read_dir : Node → Except SizeError (List (String × Node))
  | .dir (some cs) => .ok cs
  | .dir none => .error (.ioError "read_dir")
  | .file _ => .error (.ioError "read_dir")
  | .broken => .error (.ioError "read_dir")

/-- True on the `error` constructor of `Except`. -/
def is_err : Except SizeError α → Bool
  | .error _ => true
  | .ok _ => false

mutual

/-- get_size (main.rs lines 58-82), with the `fs::metadata` / `fs::read_dir`
outcomes resolved per `Node` constructor: a metadata failure propagates the
error; a file yields its length; a directory whose enumeration fails yields
total 0 (the `if let Ok(entries)` at line 65 absorbs the error); an
enumerable directory sums its children, each child's own failure absorbed as
a 0 contribution (line 69). -/
def get_size : Node → Except SizeError Nat
  | .file s => .ok s
  | .broken => .error (.ioError "metadata")
  | .dir none => .ok 0
  | .dir (some cs) => .ok (get_size_entries cs)

/-- The accumulation loop of get_size (main.rs lines 66-73): left-to-right
sum of the sizes of the successfully aggregated children. -/
def get_size_entries : List (String × Node) → Nat
  | [] => 0
  | (_, c) :: rest =>
    (match get_size c with
     | .ok s => s
     | .error _ => 0) + get_size_entries rest

end

/-- Round a rational to the nearest integer, ties to even: the rounding Rust
applies when printing an `f64` with a fixed precision. -/
def round_half_even (q : ℚ) : ℤ :=
  let f := ⌊q⌋
  let r := q - f
  if r < 1 / 2 then f
  else if 1 / 2 < r then f + 1
  else if f % 2 = 0 then f else f + 1

/-- Decimal rendering of a nonnegative rational with exactly two digits
after the point, as Rust's `format!("\x7b:.2\x7d", x)` renders it. -/
def format_two_dec (q : ℚ) : String :=
  let n := (round_half_even (q * 100)).toNat
  toString (n / 100) ++ "." ++ (if n % 100 < 10 then "0" else "") ++ toString (n % 100)

/-- format_size (main.rs lines 84-98): first matching 1024-based threshold
wins, two decimals for KB/MB/GB, plain integer for bytes. -/
def format_size (size : Nat) : String :=
  let kb : Nat := 1024
  let mb : Nat := kb * 1024
  let gb : Nat := mb * 1024
  if size ≥ gb then format_two_dec ((size : ℚ) / gb) ++ " GB"
  else if size ≥ mb then format_two_dec ((size : ℚ) / mb) ++ " MB"
  else if size ≥ kb then format_two_dec ((size : ℚ) / kb) ++ " KB"
  else toString size ++ " B"

/-- An `f64` value as the program can observe it: an exact rational, NaN, or
an infinity. -/
inductive FVal where
  | num (q : ℚ)
  | nan
  | inf
  | neginf
deriving Repr, DecidableEq

/-- Numeric value of a digit run, most significant first. -/
def digits_val (ds : List Char) : Nat :=
  ds.foldl (fun a c => a * 10 + (c.toNat - 48)) 0

/-- The exponent part of Rust's float grammar: empty means exponent 0, else
`E` followed by an optional sign and a nonempty digit run consuming the rest
of the input.  The input has already been upper-cased, so only `E` occurs. -/
def parse_exp_part : List Char → Option Int
  | [] => some 0
  | 'E' :: r =>
    let (sgn, r2) : Int × List Char :=
      match r with
      | '+' :: t => (1, t)
      | '-' :: t => (-1, t)
      | t => (1, t)
    let (ds, r3) := r2.span Char.isDigit
    if ds.isEmpty ∨ ¬ r3.isEmpty then none else some (sgn * (digits_val ds : Int))
  | _ => none

/-- Scale a rational by a power of ten. -/
def apply_exp (q : ℚ) (e : Int) : ℚ :=
  if 0 ≤ e then q * (10 : ℚ) ^ e.toNat else q / (10 : ℚ) ^ (-e).toNat

/-- The unsigned-number part of Rust's `f64::from_str` grammar:
`Digit+ ('.' Digit*)? Exp?` or `'.' Digit+ Exp?`. -/
def parse_number (cs : List Char) : Option ℚ :=
  let (ip, r1) := cs.span Char.isDigit
  match r1 with
  | '.' :: r2 =>
    let (fp, r3) := r2.span Char.isDigit
    if ip.isEmpty ∧ fp.isEmpty then none
    else
      match parse_exp_part r3 with
      | some e =>
        some (apply_exp ((digits_val ip : ℚ) + (digits_val fp : ℚ) / (10 : ℚ) ^ fp.length) e)
      | none => none
  | r2 =>
    if ip.isEmpty then none
    else
      match parse_exp_part r2 with
      | some e => some (apply_exp (digits_val ip : ℚ) e)
      | none => none

/-- Model of Rust's `str::parse::<f64>` on the already upper-cased input:
optional sign, then `INF`/`INFINITY`/`NAN` or a number.  Values are exact
rationals; `f64` rounding is immaterial for every claim proved here (see the
file header). -/
def parseF64 (s : String) : Option FVal :=
  match s.toList with
  | [] => none
  | cs =>
    let (neg, rest) : Bool × List Char :=
      match cs with
      | '+' :: r => (false, r)
      | '-' :: r => (true, r)
      | r => (false, r)
    if rest = ['I', 'N', 'F'] ∨ rest = ['I', 'N', 'F', 'I', 'N', 'I', 'T', 'Y'] then
      some (if neg then .neginf else .inf)
    else if rest = ['N', 'A', 'N'] then some .nan
    else
      match parse_number rest with
      | some q => some (.num (if neg then -q else q))
      | none => none

/-- Largest value of the `u64` type. -/
def u64_max : Nat := 2 ^ 64 - 1

/-- Rust's saturating `as u64` cast of an `f64`: truncate toward zero, clamp
into `[0, u64::MAX]`, NaN to 0.  For `q < 0` truncation and flooring agree
after the clamp to 0 (`Int.toNat` of a negative integer is 0). -/
def f64_as_u64 : FVal → Nat
  | .nan => 0
  | .neginf => 0
  | .inf => u64_max
  | .num q => min (⌊q⌋.toNat) u64_max

/-- Multiplication of a parsed value by the (always positive) unit
multiplier, as `num * multiplier as f64` performs it. -/
def fmul (v : FVal) (m : Nat) : FVal :=
  match v with
  | .nan => .nan
  | .inf => .inf
  | .neginf => .neginf
  | .num q => .num (q * (m : ℚ))

/-- The suffix-recognition chain of parse_size (main.rs lines 107-123),
applied to the trimmed upper-cased input: first match in the order KB, MB,
GB, B, K, M, G wins; the single letters alias the two-letter unit; no match
means unit B with the whole string as the number. -/
def split_unit (s : String) : String × String :=
  if s.endsWith "KB" then (s.dropRight 2, "KB")
  else if s.endsWith "MB" then (s.dropRight 2, "MB")
  else if s.endsWith "GB" then (s.dropRight 2, "GB")
  else if s.endsWith "B" then (s.dropRight 1, "B")
  else if s.endsWith "K" then (s.dropRight 1, "KB")
  else if s.endsWith "M" then (s.dropRight 1, "MB")
  else if s.endsWith "G" then (s.dropRight 1, "GB")
  else (s, "B")

/-- The multiplier table of parse_size (main.rs lines 128-134). -/
def unit_multiplier : String → Option Nat
  | "KB" => some 1024
  | "MB" => some (1024 * 1024)
  | "GB" => some (1024 * 1024 * 1024)
  | "B" => some 1
  | _ => none

/-- parse_size (main.rs lines 100-137): trim and upper-case, reject the
empty string, split off the unit suffix, parse the remainder as a float,
multiply by the unit multiplier and cast to u64. -/
def parse_size (s : String) : Except SizeError Nat :=
  let t := s.trim.toUpper
  if t.isEmpty then .error (.parseError "Empty size string")
  else
    let (num_str, unit) := split_unit t
    match parseF64 num_str with
    | none => .error (.parseError ("Invalid number: " ++ num_str))
    | some v =>
      match unit_multiplier unit with
      | none => .error (.parseError ("Unknown unit: " ++ unit))
      | some m => .ok (f64_as_u64 (fmul v m))

/-- struct FileInfo (main.rs lines 29-33).  The `node` field is the
filesystem content at the entry's path: it plays the role of the stored
`path` through which the Rust code re-reads the filesystem when recursing. -/
structure FileInfo where
  name : String
  node : Node
  size : Nat
  is_dir : Bool
deriving Repr

/-- The size chosen for a directory entry in walk_dir (main.rs lines
182-185): the aggregated size, an aggregation failure absorbed as 0. -/
def dir_size_or_zero (c : Node) : Nat :=
  match get_size c with
  | .ok s => s
  | .error _ => 0

/-- The size walk_dir records for a child (main.rs lines 181-188): the
absorbed aggregate for a directory, the metadata length for a file. -/
def entry_size (c : Node) (meta : Meta) : Nat :=
  if meta.isDir then dir_size_or_zero c else meta.len

/-- The collection loop of walk_dir (main.rs lines 171-199): skip a child
whose metadata fails, compute its size, drop it when below `min_size`, and
keep the rest in listing order. -/
def collect_files : List (String × Node) → Nat → List FileInfo
  | [], _ => []
  | (name, child) :: rest, min_size =>
    match metadata child with
    | .error _ => collect_files rest min_size
    | .ok meta =>
      if entry_size child meta < min_size then collect_files rest min_size
      else ⟨name, child, entry_size child meta, meta.isDir⟩ :: collect_files rest min_size

/-- Insert `x` into `l` after every element that strictly precedes it under
`lt` and before everything else.  With `lt a b` meaning "the comparator
orders `a` strictly before `b`", folding this over the input reproduces the
output of Rust's stable `sort_by`. -/
def insertOrd (lt : α → α → Bool) (x : α) : List α → List α
  | [] => [x]
  | y :: ys => if lt y x then y :: insertOrd lt x ys else x :: y :: ys

/-- Stable sort by the strict-precedence test `lt`: the unique sorted
permutation in which elements the comparator ties keep their input order,
which is what Rust's stable `sort_by` produces. -/
def sortOrd (lt : α → α → Bool) : List α → List α
  | [] => []
  | x :: xs => insertOrd lt x (sortOrd lt xs)

/-- The comparator of the size mode (main.rs line 203), as a strict
precedence: `b.size.cmp(&a.size)` is `Less` when `a` has the larger size. -/
def size_precedes (a b : FileInfo) : Bool :=
  decide (b.size < a.size)

/-- The comparator of the name mode (main.rs lines 205-209), as a strict
precedence: ordinal comparison of the entry names. -/
def name_precedes (a b : FileInfo) : Bool :=
  decide (a.name < b.name)

/-- The sorting step of walk_dir (main.rs lines 202-210). -/
def sort_files (sort_by_size : Bool) (files : List FileInfo) : List FileInfo :=
  if sort_by_size then sortOrd size_precedes files
  else sortOrd name_precedes files

/-- One printed entry line (main.rs lines 218-234): prefix, connector, type
icon, name, formatted size. -/
def render_line (pre : String) (is_last : Bool) (f : FileInfo) : String :=
  pre ++ (if is_last then "└── " else "├── ") ++ (if f.is_dir then "📂" else "📄")
    ++ " " ++ f.name ++ " (" ++ format_size f.size ++ ")"

/-- The extended recursion prefix (main.rs lines 238-242). -/
def child_pre (pre : String) (is_last : Bool) : String :=
  if is_last then pre ++ "    " else pre ++ "│   "

/-- The output loop of walk_dir (main.rs lines 213-254): print each entry,
and for a directory entry splice in the lines of the recursive call, a
failing recursive call discarded (`let _ =`, line 245) so that rendering
continues with the next sibling.  `recur` is the recursive renderer at the
next depth.  `is_last` (`i == total_entries - 1` in the source) is rendered
here as "no entries remain". -/
def render_entries (recur : Node → String → Except SizeError (List String))
    (pre : String) : List FileInfo → List String
  | [] => []
  | f :: rest =>
    let is_last := rest.isEmpty
    let sub :=
      if f.is_dir then
        match recur f.node (child_pre pre is_last) with
        | .ok ls => ls
        | .error _ => []
      else []
    render_line pre is_last f :: (sub ++ render_entries recur pre rest)

/-- The depth cutoff of walk_dir (main.rs lines 147-151). -/
def depth_exceeded (max_depth : Option Nat) (current_depth : Nat) : Bool :=
  match max_depth with
  | some md => decide (md < current_depth)
  | none => false

mutual

/-- Height of a node: an upper bound on the walker's recursion depth,
used as the fuel of `walkAux`. -/
def height : Node → Nat
  | .file _ => 1
  | .broken => 1
  | .dir none => 1
  | .dir (some cs) => 1 + height_entries cs

/-- Maximum height among a listing's children. -/
def height_entries : List (String × Node) → Nat
  | [] => 0
  | (_, c) :: rest => max (height c) (height_entries rest)

end

/-- walk_dir (main.rs lines 139-257) with an explicit fuel argument to make
the recursion structural.  Each recursive call strictly decreases the fuel
while the tree height bounds the recursion depth, so with fuel
`height dir` (as `walk_dir` below passes) the 0 case is never reached. -/
def walkAux : Nat → Node → String → Option Nat → Nat → Bool → Nat →
    Except SizeError (List String)
  | 0, _, _, _, _, _, _ => .ok []
  | fuel + 1, dir, pre, max_depth, min_size, sort_by_size, current_depth =>
    if depth_exceeded max_depth current_depth then .ok []
    else
      match read_dir dir with
      | .error e => .error e
      | .ok entries =>
        .ok (render_entries
          (fun child cpre =>
            walkAux fuel child cpre max_depth min_size sort_by_size (current_depth + 1))
          pre
          (sort_files sort_by_size (collect_files entries min_size)))

/-- walk_dir (main.rs lines 139-257): the fuelled walker run with enough
fuel for the whole subtree.  Its value is the list of lines the call prints,
in print order; its error is the propagated enumeration failure of `dir`
itself (main.rs line 165). -/
def walk_dir (dir : Node) (pre : String) (max_depth : Option Nat) (min_size : Nat)
    (sort_by_size : Bool) (current_depth : Nat) : Except SizeError (List String) :=
  walkAux (height dir) dir pre max_depth min_size sort_by_size current_depth

/-- Model of `Path::exists` (main.rs line 269): false when the path cannot
be stat-ed. -/
def path_exists : Node → Bool
  | .broken => false
  | _ => true

/-- Model of `Path::is_dir` (main.rs line 273). -/
def path_is_dir : Node → Bool
  | .dir _ => true
  | _ => false

/-- main (main.rs lines 259-297) after argument parsing: the sequence of
lines printed on success, or the error that aborts the program.  `disp` is
the display form of the root path, `sort_name` the `--sort-name` flag. -/
def run_main (root : Node) (disp : String) (depth : Option Nat)
    (min_size_str : String) (sort_name : Bool) : Except String (List String) :=
  match parse_size min_size_str with
  | .error e => .error (size_error_display e)
  | .ok min_size =>
    if path_exists root = false then .error ("Error: " ++ disp ++ " does not exist")
    else if path_is_dir root = false then .error ("Error: " ++ disp ++ " is not a directory")
    else
      match get_size root with
      | .error e => .error (size_error_display e)
      | .ok root_size =>
        let summary := disp ++ " (" ++ format_size root_size ++ ")"
        if root_size < min_size then
          .ok [summary, "No entries meet the minimum size criteria."]
        else
          .ok (summary ::
            (match walk_dir root "" depth min_size (!sort_name) 0 with
             | .ok ls => ls
             | .error _ => []))

/-! ## Helper lemmas -/

/-- Every node has positive height, so `walk_dir` always starts with fuel of
the successor form. -/
lemma exists_height_succ (n : Node) : ∃ k, height n = k + 1 := by
  cases n with
  | file s => exact ⟨0, rfl⟩
  | broken => exact ⟨0, rfl⟩
  | dir o =>
    cases o with
    | none => exact ⟨0, rfl⟩
    | some cs => exact ⟨height_entries cs, by simp [height, Nat.add_comm]⟩

/-- get_size fails exactly on a node whose metadata cannot be read. -/
lemma get_size_err_iff (n : Node) : is_err (get_size n) = true ↔ n = Node.broken := by
  cases n with
  | file s => simp [get_size, is_err]
  | broken => simp [get_size, is_err]
  | dir o => cases o <;> simp [get_size, is_err]

/-- A call past the depth cutoff returns no lines and no error. -/
lemma walk_dir_cutoff (dir : Node) (pre : String) (M : Nat) (sbs : Bool)
    (d m : Nat) (h : m < d) :
    walk_dir dir pre (some m) M sbs d = .ok [] := by
  obtain ⟨k, hk⟩ := exists_height_succ dir
  unfold walk_dir
  rw [hk]
  simp [walkAux, depth_exceeded, h]

/-- walk_dir fails exactly when the depth cutoff does not fire and the
enumeration of its own argument fails. -/
lemma walk_dir_err_iff (dir : Node) (pre : String) (md : Option Nat) (M : Nat)
    (sbs : Bool) (d : Nat) :
    is_err (walk_dir dir pre md M sbs d) = true ↔
      depth_exceeded md d = false ∧ is_err (read_dir dir) = true := by
  obtain ⟨k, hk⟩ := exists_height_succ dir
  unfold walk_dir
  rw [hk]
  cases h : depth_exceeded md d with
  | true => simp [walkAux, h, is_err]
  | false =>
    cases hr : read_dir dir with
    | error e => simp [walkAux, h, hr, is_err]
    | ok entries => simp [walkAux, h, hr, is_err]

/-- Every collected entry passed the minimum-size filter. -/
lemma collect_files_min (cs : List (String × Node)) (M : Nat) :
    ∀ f ∈ collect_files cs M, M ≤ f.size := by
  induction cs with
  | nil => simp [collect_files]
  | cons hd tl ih =>
    obtain ⟨name, child⟩ := hd
    intro f hf
    simp only [collect_files] at hf
    cases hm : metadata child with
    | error e =>
      rw [hm] at hf
      exact ih f hf
    | ok meta =>
      rw [hm] at hf
      by_cases hs : entry_size child meta < M
      · simp only [if_pos hs] at hf
        exact ih f hf
      · simp only [if_neg hs] at hf
        rcases List.mem_cons.mp hf with rfl | hf
        · simpa using Nat.le_of_not_lt hs
        · exact ih f hf

/-- A child whose metadata reads and whose size meets the threshold is
collected, whatever its own children look like. -/
lemma collect_files_mem (cs : List (String × Node)) (M : Nat) (name : String)
    (child : Node) (meta : Meta) (hmem : (name, child) ∈ cs)
    (hmeta : metadata child = .ok meta) (hsz : M ≤ entry_size child meta) :
    (⟨name, child, entry_size child meta, meta.isDir⟩ : FileInfo) ∈ collect_files cs M := by
  induction cs with
  | nil => cases hmem
  | cons hd tl ih =>
    obtain ⟨n2, c2⟩ := hd
    rcases List.mem_cons.mp hmem with heq | htl
    · obtain ⟨rfl, rfl⟩ := Prod.mk.injEq .. ▸ And.intro (congrArg Prod.fst heq) (congrArg Prod.snd heq)
      simp only [collect_files, hmeta]
      rw [if_neg (Nat.not_lt.mpr hsz)]
      exact List.mem_cons_self _ _
    · have hmem2 := ih htl
      simp only [collect_files]
      cases h2 : metadata c2 with
      | error e => exact hmem2
      | ok m2 =>
        by_cases hs2 : entry_size c2 m2 < M
        · simp only [if_pos hs2]
          exact hmem2
        · simp only [if_neg hs2]
          exact List.mem_cons_of_mem _ hmem2

/-- Membership in an insertion. -/
lemma mem_insertOrd (lt : α → α → Bool) (x a : α) (l : List α) :
    a ∈ insertOrd lt x l ↔ a = x ∨ a ∈ l := by
  induction l with
  | nil => simp [insertOrd]
  | cons y ys ih =>
    by_cases h : lt y x
    · rw [insertOrd, if_pos h]
      simp only [List.mem_cons, ih]
      tauto
    · rw [insertOrd, if_neg h]
      simp only [List.mem_cons]

/-- Insertion is a permutation of consing. -/
lemma insertOrd_perm (lt : α → α → Bool) (x : α) (l : List α) :
    (insertOrd lt x l).Perm (x :: l) := by
  induction l with
  | nil => simp [insertOrd]
  | cons y ys ih =>
    by_cases h : lt y x
    · simp only [insertOrd, if_pos h]
      exact (ih.cons y).trans (List.Perm.swap x y ys)
    · rw [insertOrd, if_neg h]

/-- The stable sort is a permutation of its input. -/
lemma sortOrd_perm (lt : α → α → Bool) (l : List α) : (sortOrd lt l).Perm l := by
  induction l with
  | nil => simp [sortOrd]
  | cons x xs ih =>
    exact (insertOrd_perm lt x (sortOrd lt xs)).trans (ih.cons x)

/-- Inserting into a list sorted for `S` keeps it sorted, when `S` holds
wherever the strict test answers either way and is transitive. -/
lemma pairwise_insertOrd (lt : α → α → Bool) (S : α → α → Prop)
    (h₁ : ∀ a b, lt b a = false → S a b) (h₂ : ∀ a b, lt a b = true → S a b)
    (htrans : ∀ a b c, S a b → S b c → S a c) (x : α) (l : List α)
    (hl : l.Pairwise S) : (insertOrd lt x l).Pairwise S := by
  induction l with
  | nil => simp [insertOrd]
  | cons y ys ih =>
    rcases List.pairwise_cons.mp hl with ⟨hy, hys⟩
    cases h : lt y x with
    | true =>
      simp only [insertOrd, h, if_true]
      refine List.pairwise_cons.mpr ⟨?_, ih hys⟩
      intro z hz
      rcases (mem_insertOrd lt x z ys).mp hz with rfl | hz
      · exact h₂ y z h
      · exact hy z hz
    | false =>
      simp only [insertOrd, h, if_false]
      refine List.pairwise_cons.mpr ⟨?_, hl⟩
      intro z hz
      rcases List.mem_cons.mp hz with rfl | hz
      · exact h₁ x z h
      · exact htrans x y z (h₁ x y h) (hy z hz)

/-- The stable sort sorts, under the same conditions. -/
lemma sortOrd_pairwise (lt : α → α → Bool) (S : α → α → Prop)
    (h₁ : ∀ a b, lt b a = false → S a b) (h₂ : ∀ a b, lt a b = true → S a b)
    (htrans : ∀ a b c, S a b → S b c → S a c) (l : List α) :
    (sortOrd lt l).Pairwise S := by
  induction l with
  | nil => simp [sortOrd]
  | cons x xs ih => exact pairwise_insertOrd lt S h₁ h₂ htrans x (sortOrd lt xs) ih

/-- Filtering away the inserted element leaves the rest untouched. -/
lemma filter_insertOrd_neg (lt : α → α → Bool) (p : α → Bool) (x : α)
    (l : List α) (hx : p x = false) :
    (insertOrd lt x l).filter p = l.filter p := by
  induction l with
  | nil => simp [insertOrd, hx]
  | cons y ys ih =>
    by_cases h : lt y x
    · simp only [insertOrd, if_pos h]
      cases hy : p y <;> simp [List.filter, hy, ih]
    · simp only [insertOrd, if_neg h]
      simp [List.filter, hx]

/-- When every element the insertion walks past fails the filter, the
inserted element heads the filtered insertion. -/
lemma filter_insertOrd_pos (lt : α → α → Bool) (p : α → Bool) (x : α)
    (l : List α) (hx : p x = true) (hpass : ∀ y, lt y x = true → p y = false) :
    (insertOrd lt x l).filter p = x :: l.filter p := by
  induction l with
  | nil => simp [insertOrd, hx]
  | cons y ys ih =>
    cases h : lt y x with
    | true =>
      have hy := hpass y h
      simp only [insertOrd, h, if_true]
      simp [List.filter, hy, ih]
    | false =>
      simp only [insertOrd, h, if_false]
      simp [List.filter, hx]

/-- Stability of the size-mode sort: entries of any fixed size keep their
input order. -/
lemma sort_files_stable (fs : List FileInfo) (k : Nat) :
    (sort_files true fs).filter (fun f => f.size == k) =
      fs.filter (fun f => f.size == k) := by
  have hsf : ∀ gs : List FileInfo, sort_files true gs = sortOrd size_precedes gs :=
    fun gs => rfl
  rw [hsf]
  induction fs with
  | nil => simp [sortOrd]
  | cons f fs' ih =>
    simp only [sortOrd]
    cases hf : (fun g : FileInfo => g.size == k) f with
    | true =>
      have hk : f.size = k := by simpa using hf
      rw [filter_insertOrd_pos size_precedes _ f (sortOrd size_precedes fs') hf ?_]
      · simp [List.filter, hf, ih]
      · intro y hy
        have hlt : f.size < y.size := by simpa [size_precedes] using hy
        have hne : y.size ≠ k := by omega
        simpa using hne
    | false =>
      rw [filter_insertOrd_neg size_precedes _ f (sortOrd size_precedes fs') hf]
      simp [List.filter, hf, ih]

/-- The suffix chain only ever produces the four recognized units, so the
`Unknown unit` arm of parse_size (main.rs line 133) is unreachable. -/
lemma unit_multiplier_split (s : String) :
    ∃ m, unit_multiplier (split_unit s).2 = some m := by
  unfold split_unit
  split_ifs <;> exact ⟨_, rfl⟩

/-- Evaluation of parse_size through its pipeline stages. -/
lemma parse_size_eval (s na u : String) (v : FVal) (m : Nat)
    (he : s.trim.toUpper.isEmpty = false) (hsu : split_unit s.trim.toUpper = (na, u))
    (hp : parseF64 na = some v) (hm : unit_multiplier u = some m) :
    parse_size s = .ok (f64_as_u64 (fmul v m)) := by
  unfold parse_size
  rw [if_neg (by simp [he]), hsu]
  simp only [hp, hm]

/-! ## Claim theorems -/

/-- C1, counterexample: the claim "with max_depth = 0 only the root's
summary line is printed and no entries are listed" is false on the code: the
root call runs at depth 0, the cutoff `current_depth > max_depth` does not
fire there, and the root's immediate children are printed.  Concretely, a
root holding one 10-byte file renders the summary line plus one entry line,
and the renderer's output is not empty. -/
theorem claim_C1_counterexample :
    run_main (Node.dir (some [("a.txt", Node.file 10)])) "root" (some 0) "0" false =
      .ok ["root (10 B)", "└── 📄 a.txt (10 B)"] ∧
    walk_dir (Node.dir (some [("a.txt", Node.file 10)])) "" (some 0) 0 true 0 ≠
      .ok [] := by
  constructor
  · with_unfolding_all rfl
  · have h : walk_dir (Node.dir (some [("a.txt", Node.file 10)])) "" (some 0) 0 true 0 =
        .ok ["└── 📄 a.txt (10 B)"] := by with_unfolding_all rfl
    rw [h]
    simp

/-- C1, amended: with max_depth = 0 the root call (depth 0) lists the
root's immediate children, and every recursive call whose depth exceeds
max_depth returns immediately with no output, so nothing below the first
level is printed.  Concretely, a nested tree renders the summary plus
exactly its two level-1 entries and no deeper line. -/
theorem claim_C1 :
    (∀ (dir : Node) (pre : String) (M : Nat) (sbs : Bool) (d m : Nat),
        m < d → walk_dir dir pre (some m) M sbs d = .ok []) ∧
    run_main
        (Node.dir (some [("a.txt", Node.file 10),
          ("sub", Node.dir (some [("b.txt", Node.file 20)]))]))
        "root" (some 0) "0" false =
      .ok ["root (30 B)", "├── 📂 sub (20 B)", "└── 📄 a.txt (10 B)"] := by
  constructor
  · intro dir pre M sbs d m h
    exact walk_dir_cutoff dir pre M sbs d m h
  · with_unfolding_all rfl

/-- C1, witness: the cutoff part of the amended claim applied at depth 1
with max_depth 0. -/
theorem claim_C1_witness :
    walk_dir (Node.file 3) "p" (some 0) 7 false 1 = .ok [] :=
  claim_C1.1 (Node.file 3) "p" 7 false 1 0 (by decide)

/-- C2: failure asymmetry.  get_size fails exactly when the metadata of its
argument fails; an aggregation failure of a child is absorbed as a 0 size; a
child whose metadata fails is skipped by the collection loop; walk_dir fails
exactly when the cutoff does not fire and enumerating its own argument
fails; and a failing recursive rendering call is discarded, rendering
continuing with the next sibling. -/
theorem claim_C2 :
    (∀ n : Node, is_err (get_size n) = true ↔ n = Node.broken) ∧
    (∀ c : Node, is_err (get_size c) = true → dir_size_or_zero c = 0) ∧
    (∀ (name : String) (rest : List (String × Node)) (M : Nat),
        collect_files ((name, Node.broken) :: rest) M = collect_files rest M) ∧
    (∀ (dir : Node) (pre : String) (md : Option Nat) (M : Nat) (sbs : Bool) (d : Nat),
        is_err (walk_dir dir pre md M sbs d) = true ↔
          depth_exceeded md d = false ∧ is_err (read_dir dir) = true) ∧
    (∀ (recur : Node → String → Except SizeError (List String)) (pre : String)
        (f : FileInfo) (rest : List FileInfo) (e : SizeError),
        f.is_dir = true → recur f.node (child_pre pre rest.isEmpty) = .error e →
        render_entries recur pre (f :: rest) =
          render_line pre rest.isEmpty f :: render_entries recur pre rest) := by
  refine ⟨get_size_err_iff, ?_, ?_, walk_dir_err_iff, ?_⟩
  · intro c h
    have hb := (get_size_err_iff c).mp h
    subst hb
    rfl
  · intro name rest M
    rfl
  · intro recur pre f rest e h1 h2
    simp [render_entries, h1, h2]

/-- C2, witness: the parts of C2 instantiated at concrete inputs. -/
theorem claim_C2_witness :
    is_err (get_size Node.broken) = true ∧
    dir_size_or_zero Node.broken = 0 ∧
    is_err (walk_dir (Node.dir none) "" none 0 true 0) = true ∧
    render_entries (fun _ _ => .error (SizeError.ioError "boom")) ""
        [⟨"sub", Node.dir none, 0, true⟩] =
      [render_line "" true ⟨"sub", Node.dir none, 0, true⟩] := by
  refine ⟨(claim_C2.1 Node.broken).mpr rfl,
    claim_C2.2.1 Node.broken ((claim_C2.1 Node.broken).mpr rfl),
    (claim_C2.2.2.2.1 (Node.dir none) "" none 0 true 0).mpr ⟨rfl, rfl⟩, ?_⟩
  exact claim_C2.2.2.2.2 (fun _ _ => .error (SizeError.ioError "boom")) ""
    ⟨"sub", Node.dir none, 0, true⟩ [] (SizeError.ioError "boom") rfl rfl

/-- C3: value of the aggregator.  A file yields exactly its byte length; a
directory holding only three readable files of sizes a, b, c yields
a + b + c; an empty, enumerable directory yields 0. -/
theorem claim_C3 :
    (∀ s : Nat, get_size (Node.file s) = .ok s) ∧
    (∀ (n₁ n₂ n₃ : String) (a b c : Nat),
        get_size (Node.dir (some [(n₁, Node.file a), (n₂, Node.file b), (n₃, Node.file c)])) =
          .ok (a + b + c)) ∧
    get_size (Node.dir (some ([] : List (String × Node)))) = .ok 0 := by
  refine ⟨fun s => rfl, ?_, rfl⟩
  intro n₁ n₂ n₃ a b c
  simp only [get_size, get_size_entries]
  congr 1
  omega

/-- C4: the parsing algorithm.  The trimmed upper-cased input is split at
the first matching suffix in priority order KB, MB, GB, B, K, M, G, single
letters aliasing the two-letter multiplier, the remainder is parsed as a
float, scaled by the multiplier (B=1, KB=1024, MB=1024^2, GB=1024^3; no
suffix means B), and the result truncated — in particular the spec's three
examples hold, trimming and lower-case input are accepted, and each unit,
each alias, and truncation behave as described. -/
theorem claim_C4 :
    parse_size "0" = .ok 0 ∧
    parse_size "1KB" = .ok 1024 ∧
    parse_size "1.5MB" = .ok 1572864 ∧
    parse_size " 1kb " = .ok 1024 ∧
    parse_size "1B" = .ok 1 ∧
    parse_size "1MB" = .ok 1048576 ∧
    parse_size "1GB" = .ok 1073741824 ∧
    parse_size "1K" = .ok 1024 ∧
    parse_size "1M" = .ok 1048576 ∧
    parse_size "1G" = .ok 1073741824 ∧
    parse_size "7" = .ok 7 ∧
    parse_size "0.5" = .ok 0 := by
  refine ⟨?_, ?_, ?_, ?_, ?_, ?_, ?_, ?_, ?_, ?_, ?_, ?_⟩ <;> with_unfolding_all rfl

/-- C5: parse failures.  parse_size fails exactly when the input trims to
the empty string or the numeric portion left after suffix stripping does not
parse as a float; the spec's two failing examples fail.  An input with an
unrecognized suffix, such as "5XB", fails through its numeric portion (the
junk stays inside the number), the `Unknown unit` arm being unreachable by
`unit_multiplier_split`. -/
theorem claim_C5 :
    parse_size "" = .error (SizeError.parseError "Empty size string") ∧
    parse_size "   " = .error (SizeError.parseError "Empty size string") ∧
    parse_size "5XB" = .error (SizeError.parseError "Invalid number: 5X") ∧
    (∀ s : String,
        is_err (parse_size s) = true ↔
          (s.trim.toUpper.isEmpty = true ∨
            parseF64 (split_unit s.trim.toUpper).1 = none)) := by
  refine ⟨by with_unfolding_all rfl, by with_unfolding_all rfl, by with_unfolding_all rfl, ?_⟩
  intro s
  by_cases he : s.trim.toUpper.isEmpty
  · simp [parse_size, he, is_err]
  · obtain ⟨ns, u, hsu⟩ : ∃ ns u, split_unit s.trim.toUpper = (ns, u) :=
      ⟨_, _, rfl⟩
    obtain ⟨m, hm⟩ := unit_multiplier_split s.trim.toUpper
    rw [hsu] at hm
    unfold parse_size
    rw [if_neg (by simp [he]), hsu]
    cases hp : parseF64 ns with
    | none => simp [is_err, he, hp]
    | some v => simp [is_err, he, hp, hm]

/-- C6: nonnegativity and monotonicity.  Every successful parse yields a
nonnegative count, and for two inputs carrying the same unit suffix whose
numeric portions parse to finite values qa ≥ qb, both parses succeed and the
first result is at least the second. -/
theorem claim_C6 :
    (∀ (s : String) (n : Nat), parse_size s = .ok n → 0 ≤ n) ∧
    (∀ (a b na nb u : String) (qa qb : ℚ),
        a.trim.toUpper.isEmpty = false → b.trim.toUpper.isEmpty = false →
        split_unit a.trim.toUpper = (na, u) → split_unit b.trim.toUpper = (nb, u) →
        parseF64 na = some (FVal.num qa) → parseF64 nb = some (FVal.num qb) →
        qb ≤ qa →
        ∃ x y, parse_size a = .ok x ∧ parse_size b = .ok y ∧ y ≤ x) := by
  refine ⟨fun s n _ => Nat.zero_le n, ?_⟩
  intro a b na nb u qa qb hea heb hsa hsb hpa hpb hq
  obtain ⟨m, hm⟩ := unit_multiplier_split a.trim.toUpper
  rw [hsa] at hm
  refine ⟨_, _, parse_size_eval a na u (FVal.num qa) m hea hsa hpa hm,
    parse_size_eval b nb u (FVal.num qb) m heb hsb hpb hm, ?_⟩
  simp only [fmul, f64_as_u64]
  have h1 : qb * (m : ℚ) ≤ qa * (m : ℚ) :=
    mul_le_mul_of_nonneg_right hq (Nat.cast_nonneg m)
  exact min_le_min (Int.toNat_le_toNat (Int.floor_le_floor h1)) (le_refl _)

/-- C6, witness: the monotonicity part applied to "3KB" and "2KB". -/
theorem claim_C6_witness :
    ∃ x y, parse_size "3KB" = .ok x ∧ parse_size "2KB" = .ok y ∧ y ≤ x :=
  claim_C6.2 "3KB" "2KB" "3" "2" "KB" 3 2 (by with_unfolding_all rfl)
    (by with_unfolding_all rfl) (by with_unfolding_all rfl) (by with_unfolding_all rfl)
    (by with_unfolding_all rfl) (by with_unfolding_all rfl) (by norm_num)

/-- C7: the formatter.  1024-based thresholds chosen first-match with ≥ in
the order GB, MB, KB, two decimal places each, else integer bytes: the
spec's four examples hold and each threshold boundary lands on the right
unit. -/
theorem claim_C7 :
    format_size 0 = "0 B" ∧
    format_size 1023 = "1023 B" ∧
    format_size 1024 = "1.00 KB" ∧
    format_size (1024 * 1024 - 1) = "1024.00 KB" ∧
    format_size (1024 * 1024) = "1.00 MB" ∧
    format_size (1024 * 1024 * 1024 - 1) = "1024.00 MB" ∧
    format_size (1024 * 1024 * 1024) = "1.00 GB" := by
  refine ⟨?_, ?_, ?_, ?_, ?_, ?_, ?_⟩ <;> with_unfolding_all rfl

/-- C8: minimum-size filtering.  Every collected entry has size at least
min_size, so an undersized entry never reaches sorting or display; and a
child whose metadata reads and whose own aggregated size meets the threshold
is collected — and hence shown and recursed into — regardless of what its
children look like. -/
theorem claim_C8 :
    (∀ (cs : List (String × Node)) (M : Nat), ∀ f ∈ collect_files cs M, M ≤ f.size) ∧
    (∀ (cs : List (String × Node)) (M : Nat) (name : String) (child : Node) (meta : Meta),
        (name, child) ∈ cs → metadata child = .ok meta → M ≤ entry_size child meta →
        (⟨name, child, entry_size child meta, meta.isDir⟩ : FileInfo) ∈
          collect_files cs M) :=
  ⟨collect_files_min, collect_files_mem⟩

/-- C8, witness: with min_size 25, a directory aggregating 30 bytes is
collected even though its sibling file of 1 byte is not (and its own child
is what carries the size). -/
theorem claim_C8_witness :
    (⟨"sub", Node.dir (some [("b", Node.file 30)]),
        entry_size (Node.dir (some [("b", Node.file 30)])) ⟨true, 0⟩, true⟩ : FileInfo) ∈
      collect_files [("small", Node.file 1), ("sub", Node.dir (some [("b", Node.file 30)]))]
        25 :=
  claim_C8.2 [("small", Node.file 1), ("sub", Node.dir (some [("b", Node.file 30)]))] 25
    "sub" (Node.dir (some [("b", Node.file 30)])) ⟨true, 0⟩
    (List.Mem.tail _ (List.Mem.head _)) rfl (by decide)

/-- C9: sibling ordering.  The size mode produces a permutation of the
surviving entries that is pairwise descending in size and stable on ties;
the name mode produces a permutation pairwise ascending in name under the
ordinal string order. -/
theorem claim_C9 :
    (∀ fs : List FileInfo, (sort_files true fs).Perm fs) ∧
    (∀ fs : List FileInfo,
        (sort_files true fs).Pairwise (fun a b => b.size ≤ a.size)) ∧
    (∀ fs : List FileInfo, (sort_files false fs).Perm fs) ∧
    (∀ fs : List FileInfo,
        (sort_files false fs).Pairwise (fun a b => a.name ≤ b.name)) ∧
    (∀ (fs : List FileInfo) (k : Nat),
        (sort_files true fs).filter (fun f => f.size == k) =
          fs.filter (fun f => f.size == k)) := by
  have hs : ∀ gs : List FileInfo, sort_files true gs = sortOrd size_precedes gs :=
    fun gs => rfl
  have hn : ∀ gs : List FileInfo, sort_files false gs = sortOrd name_precedes gs :=
    fun gs => rfl
  refine ⟨?_, ?_, ?_, ?_, sort_files_stable⟩
  · intro fs
    rw [hs]
    exact sortOrd_perm size_precedes fs
  · intro fs
    rw [hs]
    refine sortOrd_pairwise size_precedes (fun a b => b.size ≤ a.size) ?_ ?_ ?_ fs
    · intro a b h
      have : ¬ (a.size < b.size) := by simpa [size_precedes] using h
      omega
    · intro a b h
      have : b.size < a.size := by simpa [size_precedes] using h
      omega
    · intro a b c h1 h2
      omega
  · intro fs
    rw [hn]
    exact sortOrd_perm name_precedes fs
  · intro fs
    rw [hn]
    refine sortOrd_pairwise name_precedes (fun a b => a.name ≤ b.name) ?_ ?_ ?_ fs
    · intro a b h
      have : ¬ (b.name < a.name) := by simpa [name_precedes] using h
      exact le_of_not_lt this
    · intro a b h
      have : a.name < b.name := by simpa [name_precedes] using h
      exact le_of_lt this
    · intro a b c h1 h2
      exact le_trans h1 h2

/-- C10: the saturating cast.  A negative magnitude or NaN parses to Ok 0,
an infinite magnitude to Ok u64::MAX; in general a negative product casts to
0, NaN to 0, infinity to the maximum, and every cast result is at most
u64::MAX. -/
theorem claim_C10 :
    parse_size "-1KB" = .ok 0 ∧
    parse_size "nan" = .ok 0 ∧
    parse_size "inf" = .ok u64_max ∧
    parse_size "-inf" = .ok 0 ∧
    (∀ (q : ℚ) (m : Nat), q < 0 → f64_as_u64 (fmul (FVal.num q) m) = 0) ∧
    (∀ m : Nat, f64_as_u64 (fmul FVal.nan m) = 0 ∧ f64_as_u64 (fmul FVal.inf m) = u64_max) ∧
    (∀ (v : FVal) (m : Nat), f64_as_u64 (fmul v m) ≤ u64_max) := by
  refine ⟨by with_unfolding_all rfl, by with_unfolding_all rfl, by with_unfolding_all rfl,
    by with_unfolding_all rfl, ?_, fun m => ⟨rfl, rfl⟩, ?_⟩
  · intro q m h
    simp only [fmul, f64_as_u64]
    have h0 : q * (m : ℚ) ≤ 0 :=
      mul_nonpos_of_nonpos_of_nonneg (le_of_lt h) (Nat.cast_nonneg m)
    have hf : ⌊q * (m : ℚ)⌋ ≤ 0 := by
      have := Int.floor_le_floor h0
      simpa using this
    simp [Int.toNat_of_nonpos hf]
  · intro v m
    cases v with
    | num q => exact min_le_right _ _
    | nan => exact Nat.zero_le _
    | inf => exact le_refl _
    | neginf => exact Nat.zero_le _

/-- C10, witness: the negative-product part applied to -1 times 1024. -/
theorem claim_C10_witness : f64_as_u64 (fmul (FVal.num (-1)) 1024) = 0 :=
  claim_C10.2.2.2.2.1 (-1) 1024 (by norm_num)

end SizeTree
